import Mathlib

/-!
# Character classification of the YAML scanner

A shallow embedding of `pkg/yamlmeta/internal/yaml.v2/yamlprivateh.go`: the
byte-level predicates the scanner queries at a buffer position, and the UTF-8
`width` helper.

* A byte is a `Fin 256`.
* A buffer is a `List Byte`, a position is an `Int` (Go's `int`).
* Go's `b[i]` panics when `i` is out of range. Every predicate therefore
  returns an `Option Bool`, where `none` is that panic, and the operands of
  `&&` and `||` are evaluated left to right with short-circuiting
  (`<&&>` and `<||>` in the `Option` monad), exactly as Go evaluates them.
-/

namespace Yaml

/-- A Go `byte`. -/
abbrev Byte := Fin 256

/-- Go's conversion `byte(n)` of a non-negative integer: truncation to 8 bits. -/
def toByte (n : Nat) : Byte := ⟨n % 256, Nat.mod_lt n (by decide)⟩

/-- Go's index expression `b[i]`: `none` is the run-time panic for an index
out of range (negative, or not below `len(b)`). -/
def rd (b : List Byte) (i : Int) : Option Byte :=
  if i < 0 then none else b[i.toNat]?

/-- One comparison on an indexed byte, such as `b[i] == 0x0A`: the index
expression is evaluated (and may panic), then the comparison `p`. -/
def byteIs (b : List Byte) (i : Int) (p : Byte → Bool) : Option Bool :=
  (rd b i).map p

/-- Go's `!e` on an expression that may panic. -/
def onot (e : Option Bool) : Option Bool := e.map not

/-- The byte at position `i`, for stating properties at in-bounds positions
(`0` when `i` is out of range). -/
def byteAt (b : List Byte) (i : Int) : Byte := (rd b i).getD 0

/-! ## Buffer sizing constants -/

def inputRawBufferSize : Nat := 512

def inputBufferSize : Nat := inputRawBufferSize * 3

def outputBufferSize : Nat := 128

def outputRawBufferSize : Nat := outputBufferSize * 2 + 2

def initialStackSize : Nat := 16

def initialQueueSize : Nat := 16

def initialStringSize : Nat := 16

/-! ## Primitive predicates

Character literals of the source are written by their byte value:
`'0'` = 0x30, `'9'` = 0x39, `'A'` = 0x41, `'F'` = 0x46, `'Z'` = 0x5A,
`'a'` = 0x61, `'f'` = 0x66, `'z'` = 0x7A, `'_'` = 0x5F, `'-'` = 0x2D,
`' '` = 0x20, `'\t'` = 0x09, `'\r'` = 0x0D, `'\n'` = 0x0A, `':'` = 0x3A. -/

/-- Source `isAlpha`: an alphabetical character, a digit, `_` or `-`. -/
def isAlpha (b : List Byte) (i : Int) : Option Bool :=
  (byteIs b i (· ≥ 0x30) <&&> byteIs b i (· ≤ 0x39)) <||>
    (byteIs b i (· ≥ 0x41) <&&> byteIs b i (· ≤ 0x5A)) <||>
    (byteIs b i (· ≥ 0x61) <&&> byteIs b i (· ≤ 0x7A)) <||>
    byteIs b i (· == 0x5F) <||>
    byteIs b i (· == 0x2D)

/-- Source `isDigit`. -/
def isDigit (b : List Byte) (i : Int) : Option Bool :=
  byteIs b i (· ≥ 0x30) <&&> byteIs b i (· ≤ 0x39)

/-- Source `asDigit`: `int(b[i]) - '0'`. -/
def asDigit (b : List Byte) (i : Int) : Option Int :=
  (rd b i).map (fun x => (x.val : Int) - 0x30)

/-- Source `isHex`. -/
def isHex (b : List Byte) (i : Int) : Option Bool :=
  (byteIs b i (· ≥ 0x30) <&&> byteIs b i (· ≤ 0x39)) <||>
    (byteIs b i (· ≥ 0x41) <&&> byteIs b i (· ≤ 0x46)) <||>
    (byteIs b i (· ≥ 0x61) <&&> byteIs b i (· ≤ 0x66))

/-- Source `asHex`. -/
def asHex (b : List Byte) (i : Int) : Option Int :=
  (rd b i).map (fun bi =>
    if bi ≥ 0x41 && bi ≤ 0x46 then (bi.val : Int) - 0x41 + 10
    else if bi ≥ 0x61 && bi ≤ 0x66 then (bi.val : Int) - 0x61 + 10
    else (bi.val : Int) - 0x30)

/-- Source `isASCII`. -/
def isASCII (b : List Byte) (i : Int) : Option Bool :=
  byteIs b i (· ≤ 0x7F)

/-- Source `isPrintable`: can the character at `i` be printed unescaped. -/
def isPrintable (b : List Byte) (i : Int) : Option Bool :=
  byteIs b i (· == 0x0A) <||>
    (byteIs b i (· ≥ 0x20) <&&> byteIs b i (· ≤ 0x7E)) <||>
    (byteIs b i (· == 0xC2) <&&> byteIs b (i + 1) (· ≥ 0xA0)) <||>
    (byteIs b i (· > 0xC2) <&&> byteIs b i (· < 0xED)) <||>
    (byteIs b i (· == 0xED) <&&> byteIs b (i + 1) (· < 0xA0)) <||>
    byteIs b i (· == 0xEE) <||>
    (byteIs b i (· == 0xEF) <&&>
      onot (byteIs b (i + 1) (· == 0xBB) <&&> byteIs b (i + 2) (· == 0xBF)) <&&>
      onot (byteIs b (i + 1) (· == 0xBF) <&&>
        (byteIs b (i + 2) (· == 0xBE) <||> byteIs b (i + 2) (· == 0xBF))))

/-- Source `isZ`: NUL. -/
def isZ (b : List Byte) (i : Int) : Option Bool :=
  byteIs b i (· == 0x00)

/-- Source `isBom`: the position argument is not used, the first three bytes
of the buffer are compared. -/
def isBom (b : List Byte) (_i : Int) : Option Bool :=
  byteIs b 0 (· == 0xEF) <&&> byteIs b 1 (· == 0xBB) <&&> byteIs b 2 (· == 0xBF)

/-- Source `isSpace`. -/
def isSpace (b : List Byte) (i : Int) : Option Bool :=
  byteIs b i (· == 0x20)

/-- Source `isColon`. -/
def isColon (b : List Byte) (i : Int) : Option Bool :=
  byteIs b i (· == 0x3A)

/-- Source `isTab`. -/
def isTab (b : List Byte) (i : Int) : Option Bool :=
  byteIs b i (· == 0x09)

/-- Source `isBlank`: space or tab. -/
def isBlank (b : List Byte) (i : Int) : Option Bool :=
  byteIs b i (· == 0x20) <||> byteIs b i (· == 0x09)

/-! ## Multi-byte and composite predicates -/

/-- Source `isBreak`: CR, LF, NEL, LS or PS. -/
def isBreak (b : List Byte) (i : Int) : Option Bool :=
  byteIs b i (· == 0x0D) <||>
    byteIs b i (· == 0x0A) <||>
    (byteIs b i (· == 0xC2) <&&> byteIs b (i + 1) (· == 0x85)) <||>
    (byteIs b i (· == 0xE2) <&&> byteIs b (i + 1) (· == 0x80) <&&>
      byteIs b (i + 2) (· == 0xA8)) <||>
    (byteIs b i (· == 0xE2) <&&> byteIs b (i + 1) (· == 0x80) <&&>
      byteIs b (i + 2) (· == 0xA9))

/-- Source `isCrlf`. -/
def isCrlf (b : List Byte) (i : Int) : Option Bool :=
  byteIs b i (· == 0x0D) <&&> byteIs b (i + 1) (· == 0x0A)

/-- Source `isBreakz`: the hand-inlined "line break or NUL". -/
def isBreakz (b : List Byte) (i : Int) : Option Bool :=
  byteIs b i (· == 0x0D) <||>
    byteIs b i (· == 0x0A) <||>
    (byteIs b i (· == 0xC2) <&&> byteIs b (i + 1) (· == 0x85)) <||>
    (byteIs b i (· == 0xE2) <&&> byteIs b (i + 1) (· == 0x80) <&&>
      byteIs b (i + 2) (· == 0xA8)) <||>
    (byteIs b i (· == 0xE2) <&&> byteIs b (i + 1) (· == 0x80) <&&>
      byteIs b (i + 2) (· == 0xA9)) <||>
    byteIs b i (· == 0)

/-- Source `isSpacez`: the hand-inlined "space, line break or NUL". -/
def isSpacez (b : List Byte) (i : Int) : Option Bool :=
  byteIs b i (· == 0x20) <||>
    byteIs b i (· == 0x0D) <||>
    byteIs b i (· == 0x0A) <||>
    (byteIs b i (· == 0xC2) <&&> byteIs b (i + 1) (· == 0x85)) <||>
    (byteIs b i (· == 0xE2) <&&> byteIs b (i + 1) (· == 0x80) <&&>
      byteIs b (i + 2) (· == 0xA8)) <||>
    (byteIs b i (· == 0xE2) <&&> byteIs b (i + 1) (· == 0x80) <&&>
      byteIs b (i + 2) (· == 0xA9)) <||>
    byteIs b i (· == 0)

/-- Source `isBlankz`: the hand-inlined "space, tab, line break or NUL". -/
def isBlankz (b : List Byte) (i : Int) : Option Bool :=
  byteIs b i (· == 0x20) <||> byteIs b i (· == 0x09) <||>
    byteIs b i (· == 0x0D) <||>
    byteIs b i (· == 0x0A) <||>
    (byteIs b i (· == 0xC2) <&&> byteIs b (i + 1) (· == 0x85)) <||>
    (byteIs b i (· == 0xE2) <&&> byteIs b (i + 1) (· == 0x80) <&&>
      byteIs b (i + 2) (· == 0xA8)) <||>
    (byteIs b i (· == 0xE2) <&&> byteIs b (i + 1) (· == 0x80) <&&>
      byteIs b (i + 2) (· == 0xA9)) <||>
    byteIs b i (· == 0)

/-! ## Width helper -/

/-- Source `width`: the length of the UTF-8 sequence a leading byte starts. -/
def width (b : Byte) : Nat :=
  if b &&& 0x80 == 0x00 then 1
  else if b &&& 0xE0 == 0xC0 then 2
  else if b &&& 0xF0 == 0xE0 then 3
  else if b &&& 0xF8 == 0xF0 then 4
  else 0

/-! ## Specification vocabulary

These definitions are not in the source: they say what the properties below
talk about (code points and their UTF-8 encoding, RFC 3629). -/

/-- A Unicode scalar value: a code point up to U+10FFFF that is not a
surrogate (U+D800 to U+DFFF). -/
def isScalar (c : Nat) : Prop := c ≤ 0x10FFFF ∧ ¬ (0xD800 ≤ c ∧ c ≤ 0xDFFF)

instance (c : Nat) : Decidable (isScalar c) := by
  unfold isScalar; infer_instance

/-- The well-formed UTF-8 encoding of a code point: one byte `0xxxxxxx` up to
U+007F, two bytes `110xxxxx 10xxxxxx` up to U+07FF, three bytes
`1110xxxx 10xxxxxx 10xxxxxx` up to U+FFFF, four bytes
`11110xxx 10xxxxxx 10xxxxxx 10xxxxxx` above. -/
def utf8Encode (c : Nat) : List Byte :=
  if c ≤ 0x7F then [toByte c]
  else if c ≤ 0x7FF then [toByte (0xC0 + c / 0x40), toByte (0x80 + c % 0x40)]
  else if c ≤ 0xFFFF then
    [toByte (0xE0 + c / 0x1000), toByte (0x80 + c / 0x40 % 0x40), toByte (0x80 + c % 0x40)]
  else
    [toByte (0xF0 + c / 0x40000), toByte (0x80 + c / 0x1000 % 0x40),
      toByte (0x80 + c / 0x40 % 0x40), toByte (0x80 + c % 0x40)]

/-- The buffer `b` holds the byte sequence `enc` starting at position `i`,
every byte of it inside the buffer. -/
def holdsAt (b : List Byte) (i : Int) (enc : List Byte) : Prop :=
  ∀ k : Nat, k < enc.length → rd b (i + (k : Int)) = enc[k]?

instance (b : List Byte) (i : Int) (enc : List Byte) : Decidable (holdsAt b i enc) := by
  unfold holdsAt; infer_instance

/-- A continuation byte, bit pattern `10xxxxxx`. -/
def isContinuation (x : Byte) : Prop := x &&& 0xC0 = 0x80

instance (x : Byte) : Decidable (isContinuation x) := by
  unfold isContinuation; infer_instance

/-- A 5-byte leading pattern of the original UTF-8 scheme, `111110xx`. -/
def isLead5 (x : Byte) : Prop := x &&& 0xFC = 0xF8

instance (x : Byte) : Decidable (isLead5 x) := by
  unfold isLead5; infer_instance

/-- A 6-byte leading pattern of the original UTF-8 scheme, `1111110x`. -/
def isLead6 (x : Byte) : Prop := x &&& 0xFE = 0xFC

instance (x : Byte) : Decidable (isLead6 x) := by
  unfold isLead6; infer_instance

/-- The byte patterns at which `isPrintable` is described as true, the bytes
after `C2` and `ED` being required to be continuation bytes: `x`, `y`, `z`
are the bytes at `i`, `i+1`, `i+2`. -/
def printableStated (x y z : Byte) : Prop :=
  x = 0x0A ∨ (0x20 ≤ x ∧ x ≤ 0x7E) ∨
    (x = 0xC2 ∧ isContinuation y ∧ y ≥ 0xA0) ∨
    (0xC2 < x ∧ x < 0xED) ∨
    (x = 0xED ∧ isContinuation y ∧ y < 0xA0) ∨
    x = 0xEE ∨
    (x = 0xEF ∧ (y, z) ≠ (0xBB, 0xBF) ∧ (y, z) ≠ (0xBF, 0xBE) ∧ (y, z) ≠ (0xBF, 0xBF))

instance (x y z : Byte) : Decidable (printableStated x y z) := by
  unfold printableStated; infer_instance

/-- The sixteen hexadecimal digits in lower case, as bytes: the `n`-th entry
is the character of value `n`. -/
def hexDigitsLower : List Byte :=
  "0123456789abcdef".toList.map (fun ch => toByte ch.toNat)

/-- The sixteen hexadecimal digits in upper case, as bytes. -/
def hexDigitsUpper : List Byte :=
  "0123456789ABCDEF".toList.map (fun ch => toByte ch.toNat)

/-! ## Evaluation lemmas -/

theorem orM_some_some (p q : Bool) : (some p <||> some q) = some (p || q) := by
  cases p <;> rfl

theorem andM_some_some (p q : Bool) : (some p <&&> some q) = some (p && q) := by
  cases p <;> rfl

theorem orM_some_left (p : Bool) (e : Option Bool) :
    (some p <||> e) = if p then some true else e := by
  cases p <;> rfl

theorem andM_some_left (p : Bool) (e : Option Bool) :
    (some p <&&> e) = if p then e else some false := by
  cases p <;> rfl

theorem andM_false_left (e : Option Bool) : (some false <&&> e) = some false := rfl

theorem orM_true_left (e : Option Bool) : (some true <||> e) = some true := rfl

theorem onot_some (p : Bool) : onot (some p) = some (!p) := rfl

theorem byteIs_of_rd {b : List Byte} {i : Int} {x : Byte} (h : rd b i = some x)
    (p : Byte → Bool) : byteIs b i p = some (p x) := by
  simp [byteIs, h]

theorem rd_natCast (b : List Byte) (n : Nat) : rd b (n : Int) = b[n]? := by
  simp [rd]

/-- An in-bounds index expression does not panic. -/
theorem rd_eq_byteAt (b : List Byte) (i : Int) (h0 : 0 ≤ i) (h : i < b.length) :
    rd b i = some (byteAt b i) := by
  obtain ⟨n, rfl⟩ := Int.eq_ofNat_of_zero_le h0
  have hn : n < b.length := by exact_mod_cast h
  simp [byteAt, rd_natCast, List.getElem?_eq_getElem hn]

theorem holdsAt_one (b : List Byte) (i : Int) (x : Byte) :
    holdsAt b i [x] ↔ rd b i = some x := by
  constructor
  · intro h
    simpa using h 0 (by simp)
  · intro h k hk
    have : k = 0 := by simpa using hk
    subst this
    simpa using h

theorem holdsAt_two (b : List Byte) (i : Int) (x y : Byte) :
    holdsAt b i [x, y] ↔ rd b i = some x ∧ rd b (i + 1) = some y := by
  constructor
  · intro h
    exact ⟨by simpa using h 0 (by simp), by simpa using h 1 (by simp)⟩
  · rintro ⟨hx, hy⟩ k hk
    have : k = 0 ∨ k = 1 := by simp at hk; omega
    rcases this with rfl | rfl
    · simpa using hx
    · simpa using hy

theorem holdsAt_three (b : List Byte) (i : Int) (x y z : Byte) :
    holdsAt b i [x, y, z] ↔
      rd b i = some x ∧ rd b (i + 1) = some y ∧ rd b (i + 2) = some z := by
  constructor
  · intro h
    exact ⟨by simpa using h 0 (by simp), by simpa using h 1 (by simp),
      by simpa using h 2 (by simp)⟩
  · rintro ⟨hx, hy, hz⟩ k hk
    have : k = 0 ∨ k = 1 ∨ k = 2 := by simp at hk; omega
    rcases this with rfl | rfl | rfl
    · simpa using hx
    · simpa using hy
    · simpa using hz

theorem holdsAt_four (b : List Byte) (i : Int) (x y z w : Byte) :
    holdsAt b i [x, y, z, w] ↔
      rd b i = some x ∧ rd b (i + 1) = some y ∧ rd b (i + 2) = some z ∧
        rd b (i + 3) = some w := by
  constructor
  · intro h
    exact ⟨by simpa using h 0 (by simp), by simpa using h 1 (by simp),
      by simpa using h 2 (by simp), by simpa using h 3 (by simp)⟩
  · rintro ⟨hx, hy, hz, hw⟩ k hk
    have : k = 0 ∨ k = 1 ∨ k = 2 ∨ k = 3 := by simp at hk; omega
    rcases this with rfl | rfl | rfl | rfl
    · simpa using hx
    · simpa using hy
    · simpa using hz
    · simpa using hw

/-! ## The width helper on single bytes -/

set_option maxRecDepth 100000 in
/-- The value of `width` on each of the six byte ranges. -/
theorem width_ranges : ∀ b : Byte,
    width b = (if b ≤ 0x7F then 1 else if b ≤ 0xBF then 0 else if b ≤ 0xDF then 2
      else if b ≤ 0xEF then 3 else if b ≤ 0xF7 then 4 else 0) := by
  decide

theorem toByte_val (n : Nat) : (toByte n).val = n % 256 := rfl

theorem byte_le_iff (x y : Byte) : x ≤ y ↔ x.val ≤ y.val := Iff.rfl

theorem byte_lt_iff (x y : Byte) : x < y ↔ x.val < y.val := Iff.rfl

theorem toByte_ne (n : Nat) (k : Byte) (h : n % 256 ≠ k.val) : toByte n ≠ k := by
  intro e
  exact h (by rw [← e, toByte_val])

/-- `width` of a byte given by its numeric value. -/
theorem width_toByte (n : Nat) :
    width (toByte n) = (if n % 256 ≤ 0x7F then 1 else if n % 256 ≤ 0xBF then 0
      else if n % 256 ≤ 0xDF then 2 else if n % 256 ≤ 0xEF then 3
      else if n % 256 ≤ 0xF7 then 4 else 0) := by
  rw [width_ranges]
  simp only [byte_le_iff, toByte_val]
  rfl

/-- C2: on the first byte of the UTF-8 encoding of a Unicode scalar value,
`width` is the number of bytes of that encoding, which is 1 up to U+007F,
2 up to U+07FF, 3 up to U+FFFF and 4 above; in particular it is not 0. -/
theorem width_utf8Encode_head (c : Nat) (hc : isScalar c) :
    (utf8Encode c).head?.map width = some (utf8Encode c).length ∧
    (utf8Encode c).length =
      (if c ≤ 0x7F then 1 else if c ≤ 0x7FF then 2 else if c ≤ 0xFFFF then 3 else 4) ∧
    (utf8Encode c).head?.map width ≠ some 0 := by
  obtain ⟨hmax, _⟩ := hc
  unfold utf8Encode
  by_cases h1 : c ≤ 0x7F
  · have : c % 256 ≤ 0x7F := by omega
    simp [h1, width_toByte, this]
  · by_cases h2 : c ≤ 0x7FF
    · have e : (0xC0 + c / 0x40) % 256 = 0xC0 + c / 0x40 := by omega
      have l1 : ¬ (0xC0 + c / 0x40 ≤ 0x7F) := by omega
      have l2 : ¬ (0xC0 + c / 0x40 ≤ 0xBF) := by omega
      have l3 : 0xC0 + c / 0x40 ≤ 0xDF := by omega
      simp [h1, h2, width_toByte, e, l1, l2, l3]
    · by_cases h3 : c ≤ 0xFFFF
      · have e : (0xE0 + c / 0x1000) % 256 = 0xE0 + c / 0x1000 := by omega
        have l1 : ¬ (0xE0 + c / 0x1000 ≤ 0x7F) := by omega
        have l2 : ¬ (0xE0 + c / 0x1000 ≤ 0xBF) := by omega
        have l3 : ¬ (0xE0 + c / 0x1000 ≤ 0xDF) := by omega
        have l4 : 0xE0 + c / 0x1000 ≤ 0xEF := by omega
        simp [h1, h2, h3, width_toByte, e, l1, l2, l3, l4]
      · have e : (0xF0 + c / 0x40000) % 256 = 0xF0 + c / 0x40000 := by omega
        have l1 : ¬ (0xF0 + c / 0x40000 ≤ 0x7F) := by omega
        have l2 : ¬ (0xF0 + c / 0x40000 ≤ 0xBF) := by omega
        have l3 : ¬ (0xF0 + c / 0x40000 ≤ 0xDF) := by omega
        have l4 : ¬ (0xF0 + c / 0x40000 ≤ 0xEF) := by omega
        have l5 : 0xF0 + c / 0x40000 ≤ 0xF7 := by omega
        simp [h1, h2, h3, width_toByte, e, l1, l2, l3, l4, l5]

/-- Witness for C2 at U+20AC (the euro sign, encoded `E2 82 AC`). -/
theorem width_utf8Encode_head_witness :
    isScalar 0x20AC ∧ (utf8Encode 0x20AC).head?.map width = some 3 :=
  ⟨by decide, (width_utf8Encode_head 0x20AC (by decide)).1⟩

/-- Counterexample to C3 as stated: `width` is 0 on the byte `0xFE`
(`11111110`), which is neither a continuation byte nor a 5-byte or 6-byte
leading pattern. -/
theorem width_zero_not_only_stated_patterns :
    ¬ (width 0xFE = 0 ↔ (isContinuation 0xFE ∨ isLead5 0xFE ∨ isLead6 0xFE)) := by
  decide

set_option maxRecDepth 100000 in
/-- C3, amended: `width b` is one of 0, 1, 2, 3, 4 for every byte, and it is
0 exactly on the continuation bytes, the 5-byte and 6-byte leading patterns,
and the two bytes `0xFE` and `0xFF`. -/
theorem width_zero_iff : ∀ b : Byte,
    (width b = 0 ∨ width b = 1 ∨ width b = 2 ∨ width b = 3 ∨ width b = 4) ∧
    (width b = 0 ↔ (isContinuation b ∨ isLead5 b ∨ isLead6 b ∨ b = 0xFE ∨ b = 0xFF)) := by
  decide

set_option maxRecDepth 100000 in
/-- C4: `width b` is 1 when the top bit of `b` is 0, 2 when the top three
bits are `110`, 3 when the top four bits are `1110`, 4 when the top five bits
are `11110`, and 0 for every other byte; that is 1 on `00..7F`, 0 on
`80..BF`, 2 on `C0..DF`, 3 on `E0..EF`, 4 on `F0..F7` and 0 on `F8..FF`. -/
theorem width_by_top_bits : ∀ b : Byte,
    (b.val >>> 7 = 0b0 → width b = 1) ∧
    (b.val >>> 5 = 0b110 → width b = 2) ∧
    (b.val >>> 4 = 0b1110 → width b = 3) ∧
    (b.val >>> 3 = 0b11110 → width b = 4) ∧
    (¬ (b.val >>> 7 = 0b0 ∨ b.val >>> 5 = 0b110 ∨ b.val >>> 4 = 0b1110 ∨
        b.val >>> 3 = 0b11110) → width b = 0) ∧
    width b = (if b ≤ 0x7F then 1 else if b ≤ 0xBF then 0 else if b ≤ 0xDF then 2
      else if b ≤ 0xEF then 3 else if b ≤ 0xF7 then 4 else 0) := by
  decide

/-! ## Line breaks and the composite predicates -/

/-- The three index expressions `b[i]`, `b[i+1]`, `b[i+2]` do not panic when
`i + 2` is in bounds. -/
theorem rd_three (b : List Byte) (i : Int) (h0 : 0 ≤ i) (h : i + 2 < b.length) :
    rd b i = some (byteAt b i) ∧ rd b (i + 1) = some (byteAt b (i + 1)) ∧
      rd b (i + 2) = some (byteAt b (i + 2)) :=
  ⟨rd_eq_byteAt b i h0 (by omega), rd_eq_byteAt b (i + 1) (by omega) (by omega),
    rd_eq_byteAt b (i + 2) (by omega) h⟩

/-- The value of `isBreak` when the three bytes at `i` can be read. -/
theorem isBreak_of_rd {b : List Byte} {i : Int} {x y z : Byte} (hx : rd b i = some x)
    (hy : rd b (i + 1) = some y) (hz : rd b (i + 2) = some z) :
    isBreak b i = some (x == 0x0D || x == 0x0A || (x == 0xC2 && y == 0x85) ||
      (x == 0xE2 && y == 0x80 && z == 0xA8) || (x == 0xE2 && y == 0x80 && z == 0xA9)) := by
  simp only [isBreak, byteIs_of_rd hx, byteIs_of_rd hy, byteIs_of_rd hz, orM_some_some,
    andM_some_some]
  simp [Bool.or_assoc, Bool.and_assoc]

/-- The value of `isBreakz` when the three bytes at `i` can be read. -/
theorem isBreakz_of_rd {b : List Byte} {i : Int} {x y z : Byte} (hx : rd b i = some x)
    (hy : rd b (i + 1) = some y) (hz : rd b (i + 2) = some z) :
    isBreakz b i = some ((x == 0x0D || x == 0x0A || (x == 0xC2 && y == 0x85) ||
      (x == 0xE2 && y == 0x80 && z == 0xA8) || (x == 0xE2 && y == 0x80 && z == 0xA9)) ||
      x == 0x00) := by
  simp only [isBreakz, byteIs_of_rd hx, byteIs_of_rd hy, byteIs_of_rd hz, orM_some_some,
    andM_some_some]
  simp [Bool.or_assoc, Bool.and_assoc]

/-- C6: with `i + 2` in bounds, `isBreak b i` is true exactly when the bytes
at `i` are `0D`, or `0A`, or `C2 85`, or `E2 80 A8`, or `E2 80 A9`; that is,
exactly when the buffer holds at `i` the UTF-8 encoding of CR, LF, NEL
(U+0085), LS (U+2028) or PS (U+2029). -/
theorem isBreak_iff (b : List Byte) (i : Int) (h0 : 0 ≤ i) (h : i + 2 < b.length) :
    isBreak b i = some (decide (byteAt b i = 0x0D ∨ byteAt b i = 0x0A ∨
      (byteAt b i = 0xC2 ∧ byteAt b (i + 1) = 0x85) ∨
      (byteAt b i = 0xE2 ∧ byteAt b (i + 1) = 0x80 ∧ byteAt b (i + 2) = 0xA8) ∨
      (byteAt b i = 0xE2 ∧ byteAt b (i + 1) = 0x80 ∧ byteAt b (i + 2) = 0xA9))) ∧
    (isBreak b i = some true ↔
      ∃ c ∈ [0x0D, 0x0A, 0x85, 0x2028, 0x2029], holdsAt b i (utf8Encode c)) := by
  obtain ⟨hx, hy, hz⟩ := rd_three b i h0 h
  have e1 : utf8Encode 0x0D = [0x0D] := by decide
  have e2 : utf8Encode 0x0A = [0x0A] := by decide
  have e3 : utf8Encode 0x85 = [0xC2, 0x85] := by decide
  have e4 : utf8Encode 0x2028 = [0xE2, 0x80, 0xA8] := by decide
  have e5 : utf8Encode 0x2029 = [0xE2, 0x80, 0xA9] := by decide
  rw [isBreak_of_rd hx hy hz]
  refine ⟨congrArg some ?_, ?_⟩
  · rw [Bool.eq_iff_iff]
    simp [and_assoc, or_assoc]
  · simp [e1, e2, e3, e4, e5, holdsAt_one, holdsAt_two, holdsAt_three, hx, hy, hz,
      and_assoc, or_assoc]

/-- Witness for C6: the buffer `E2 80 A8` (LS) at position 0. -/
theorem isBreak_iff_witness :
    isBreak [0xE2, 0x80, 0xA8] 0 = some true ↔
      ∃ c ∈ [0x0D, 0x0A, 0x85, 0x2028, 0x2029], holdsAt [0xE2, 0x80, 0xA8] 0 (utf8Encode c) :=
  (isBreak_iff [0xE2, 0x80, 0xA8] 0 (by decide) (by decide)).2

/-- The value of `isSpacez` when the three bytes at `i` can be read. -/
theorem isSpacez_of_rd {b : List Byte} {i : Int} {x y z : Byte} (hx : rd b i = some x)
    (hy : rd b (i + 1) = some y) (hz : rd b (i + 2) = some z) :
    isSpacez b i = some (x == 0x20 ||
      ((x == 0x0D || x == 0x0A || (x == 0xC2 && y == 0x85) ||
        (x == 0xE2 && y == 0x80 && z == 0xA8) || (x == 0xE2 && y == 0x80 && z == 0xA9)) ||
        x == 0x00)) := by
  simp only [isSpacez, byteIs_of_rd hx, byteIs_of_rd hy, byteIs_of_rd hz, orM_some_some,
    andM_some_some]
  simp [Bool.or_assoc, Bool.and_assoc]

/-- The value of `isBlankz` when the three bytes at `i` can be read. -/
theorem isBlankz_of_rd {b : List Byte} {i : Int} {x y z : Byte} (hx : rd b i = some x)
    (hy : rd b (i + 1) = some y) (hz : rd b (i + 2) = some z) :
    isBlankz b i = some ((x == 0x20 || x == 0x09) ||
      ((x == 0x0D || x == 0x0A || (x == 0xC2 && y == 0x85) ||
        (x == 0xE2 && y == 0x80 && z == 0xA8) || (x == 0xE2 && y == 0x80 && z == 0xA9)) ||
        x == 0x00)) := by
  simp only [isBlankz, byteIs_of_rd hx, byteIs_of_rd hy, byteIs_of_rd hz, orM_some_some,
    andM_some_some]
  simp [Bool.or_assoc, Bool.and_assoc]

/-- C7: with `i + 2` in bounds, `isBreak`, `isZ` and the hand-inlined
`isBreakz` all return, and `isBreakz b i` is `isBreak b i || isZ b i`;
so `isBreak b i` implies `isBreakz b i`. -/
theorem isBreakz_eq_isBreak_or_isZ (b : List Byte) (i : Int) (h0 : 0 ≤ i)
    (h : i + 2 < b.length) :
    (∃ r z : Bool, isBreak b i = some r ∧ isZ b i = some z ∧ isBreakz b i = some (r || z)) ∧
    isBreakz b i = (isBreak b i <||> isZ b i) ∧
    (isBreak b i = some true → isBreakz b i = some true) := by
  obtain ⟨hx, hy, hz⟩ := rd_three b i h0 h
  have hZ : isZ b i = some (byteAt b i == 0x00) := byteIs_of_rd hx _
  rw [isBreak_of_rd hx hy hz, isBreakz_of_rd hx hy hz, hZ, orM_some_some]
  refine ⟨⟨_, _, rfl, rfl, rfl⟩, rfl, ?_⟩
  intro hb
  rw [Option.some.injEq] at hb
  rw [hb, Bool.true_or]

/-- Witness for C7: the buffer `C2 85 00` (NEL, then NUL) at position 0. -/
theorem isBreakz_eq_isBreak_or_isZ_witness :
    isBreakz [0xC2, 0x85, 0x00] 0 = (isBreak [0xC2, 0x85, 0x00] 0 <||> isZ [0xC2, 0x85, 0x00] 0) :=
  (isBreakz_eq_isBreak_or_isZ [0xC2, 0x85, 0x00] 0 (by decide) (by decide)).2.1

/-- C8: with `i + 2` in bounds, `isBlank`, `isBreakz` and the hand-inlined
`isBlankz` all return, and `isBlankz b i` is `isBlank b i || isBreakz b i`. -/
theorem isBlankz_eq_isBlank_or_isBreakz (b : List Byte) (i : Int) (h0 : 0 ≤ i)
    (h : i + 2 < b.length) :
    (∃ r z : Bool, isBlank b i = some r ∧ isBreakz b i = some z ∧
      isBlankz b i = some (r || z)) ∧
    isBlankz b i = (isBlank b i <||> isBreakz b i) := by
  obtain ⟨hx, hy, hz⟩ := rd_three b i h0 h
  have hB : isBlank b i = some (byteAt b i == 0x20 || byteAt b i == 0x09) := by
    simp only [isBlank, byteIs_of_rd hx, orM_some_some]
  rw [isBlankz_of_rd hx hy hz, isBreakz_of_rd hx hy hz, hB, orM_some_some]
  exact ⟨⟨_, _, rfl, rfl, rfl⟩, rfl⟩

/-- Witness for C8: the buffer `09 41 42` (a tab first) at position 0. -/
theorem isBlankz_eq_isBlank_or_isBreakz_witness :
    isBlankz [0x09, 0x41, 0x42] 0 =
      (isBlank [0x09, 0x41, 0x42] 0 <||> isBreakz [0x09, 0x41, 0x42] 0) :=
  (isBlankz_eq_isBlank_or_isBreakz [0x09, 0x41, 0x42] 0 (by decide) (by decide)).2

/-- C9: with `i + 2` in bounds, `isSpace`, `isBreakz` and the hand-inlined
`isSpacez` all return, and `isSpacez b i` is `isSpace b i || isBreakz b i`. -/
theorem isSpacez_eq_isSpace_or_isBreakz (b : List Byte) (i : Int) (h0 : 0 ≤ i)
    (h : i + 2 < b.length) :
    (∃ r z : Bool, isSpace b i = some r ∧ isBreakz b i = some z ∧
      isSpacez b i = some (r || z)) ∧
    isSpacez b i = (isSpace b i <||> isBreakz b i) := by
  obtain ⟨hx, hy, hz⟩ := rd_three b i h0 h
  have hS : isSpace b i = some (byteAt b i == 0x20) := byteIs_of_rd hx _
  rw [isSpacez_of_rd hx hy hz, isBreakz_of_rd hx hy hz, hS, orM_some_some]
  exact ⟨⟨_, _, rfl, rfl, rfl⟩, rfl⟩

/-- Witness for C9: the buffer `41 E2 80 A9` (PS at position 1). -/
theorem isSpacez_eq_isSpace_or_isBreakz_witness :
    isSpacez [0x41, 0xE2, 0x80, 0xA9] 1 =
      (isSpace [0x41, 0xE2, 0x80, 0xA9] 1 <||> isBreakz [0x41, 0xE2, 0x80, 0xA9] 1) :=
  (isSpacez_eq_isSpace_or_isBreakz [0x41, 0xE2, 0x80, 0xA9] 1 (by decide) (by decide)).2

/-! ## The printable class -/

/-- The value of `isPrintable` when the three bytes at `i` can be read. -/
theorem isPrintable_of_rd {b : List Byte} {i : Int} {x y z : Byte} (hx : rd b i = some x)
    (hy : rd b (i + 1) = some y) (hz : rd b (i + 2) = some z) :
    isPrintable b i = some (x == 0x0A || (decide (x ≥ 0x20) && decide (x ≤ 0x7E)) ||
      (x == 0xC2 && decide (y ≥ 0xA0)) || (decide (x > 0xC2) && decide (x < 0xED)) ||
      (x == 0xED && decide (y < 0xA0)) || x == 0xEE ||
      (x == 0xEF && !(y == 0xBB && z == 0xBF) && !(y == 0xBF && (z == 0xBE || z == 0xBF)))) := by
  simp only [isPrintable, byteIs_of_rd hx, byteIs_of_rd hy, byteIs_of_rd hz, orM_some_some,
    andM_some_some, onot_some]
  simp [Bool.or_assoc, Bool.and_assoc]

/-- Counterexample to C5 as stated: in the buffer `C2 C0 00` the byte after
`C2` is `C0`, which is not a continuation byte, and `isPrintable` is true at
position 0; likewise in `ED 41 00`, where the byte after `ED` is `41`. -/
theorem isPrintable_not_stated :
    (isPrintable [0xC2, 0xC0, 0x00] 0 = some true ∧ ¬ printableStated 0xC2 0xC0 0x00) ∧
    (isPrintable [0xED, 0x41, 0x00] 0 = some true ∧ ¬ printableStated 0xED 0x41 0x00) := by
  decide

/-- C5, amended: with `i + 2` in bounds, `isPrintable b i` is true exactly
when `b[i] = 0A`; or `20 ≤ b[i] ≤ 7E`; or `b[i] = C2` and `b[i+1] ≥ A0`; or
`C2 < b[i] < ED`; or `b[i] = ED` and `b[i+1] < A0`; or `b[i] = EE`; or
`b[i] = EF` and `(b[i+1], b[i+2])` is none of `(BB,BF)`, `(BF,BE)`,
`(BF,BF)`. It is true at byte `7E` and false at byte `7F`. -/
theorem isPrintable_iff (b : List Byte) (i : Int) (h0 : 0 ≤ i) (h : i + 2 < b.length) :
    isPrintable b i = some (decide (
      byteAt b i = 0x0A ∨ (0x20 ≤ byteAt b i ∧ byteAt b i ≤ 0x7E) ∨
      (byteAt b i = 0xC2 ∧ byteAt b (i + 1) ≥ 0xA0) ∨
      (0xC2 < byteAt b i ∧ byteAt b i < 0xED) ∨
      (byteAt b i = 0xED ∧ byteAt b (i + 1) < 0xA0) ∨
      byteAt b i = 0xEE ∨
      (byteAt b i = 0xEF ∧ (byteAt b (i + 1), byteAt b (i + 2)) ≠ (0xBB, 0xBF) ∧
        (byteAt b (i + 1), byteAt b (i + 2)) ≠ (0xBF, 0xBE) ∧
        (byteAt b (i + 1), byteAt b (i + 2)) ≠ (0xBF, 0xBF)))) ∧
    (byteAt b i = 0x7E → isPrintable b i = some true) ∧
    (byteAt b i = 0x7F → isPrintable b i = some false) := by
  obtain ⟨hx, hy, hz⟩ := rd_three b i h0 h
  rw [isPrintable_of_rd hx hy hz]
  generalize byteAt b i = x
  generalize byteAt b (i + 1) = y
  generalize byteAt b (i + 2) = z
  refine ⟨congrArg some ?_, ?_, ?_⟩
  · rw [Bool.eq_iff_iff]
    simp
    by_cases e1 : y = 191 <;> by_cases e2 : z = 191 <;> simp [e1, e2, or_assoc]
  · rintro rfl
    simp
  · rintro rfl
    simp

/-- Witness for C5: the buffer `7E 00 00` at position 0. -/
theorem isPrintable_iff_witness :
    ((0 : Int) ≤ 0 ∧ (0 : Int) + 2 < ([0x7E, 0x00, 0x00] : List Byte).length) ∧
    isPrintable [0x7E, 0x00, 0x00] 0 = some true :=
  ⟨by decide, (isPrintable_iff [0x7E, 0x00, 0x00] 0 (by decide) (by decide)).2.1 (by decide)⟩

/-! ## The byte-order mark -/

/-- C10: for a buffer of at least three bytes and any position argument `i`,
`isBom b i` is true exactly when the first three bytes of the buffer are
`EF BB BF`, whatever `i` is; so where the bytes at `i`, `i+1`, `i+2` (`i > 0`)
are `EF BB BF` and the first three bytes of the buffer are not, `isBom b i`
is false and `isPrintable b i` is false too. -/
theorem isBom_iff (b : List Byte) (i : Int) (h : 3 ≤ b.length) :
    isBom b i = some (decide (byteAt b 0 = 0xEF ∧ byteAt b 1 = 0xBB ∧ byteAt b 2 = 0xBF)) ∧
    (∀ j : Int, isBom b j = isBom b i) ∧
    (0 < i → holdsAt b i [0xEF, 0xBB, 0xBF] →
      ¬ (byteAt b 0 = 0xEF ∧ byteAt b 1 = 0xBB ∧ byteAt b 2 = 0xBF) →
      isBom b i = some false ∧ isPrintable b i = some false) := by
  have hl : (0 : Int) + 2 < b.length := by omega
  obtain ⟨hx, hy, hz⟩ := rd_three b 0 (le_refl 0) hl
  simp only [zero_add] at hy hz
  have hB : isBom b i =
      some (decide (byteAt b 0 = 0xEF ∧ byteAt b 1 = 0xBB ∧ byteAt b 2 = 0xBF)) := by
    simp only [isBom, byteIs_of_rd hx, byteIs_of_rd hy, byteIs_of_rd hz, andM_some_some]
    refine congrArg some ?_
    rw [Bool.eq_iff_iff]
    simp
  refine ⟨hB, fun j => rfl, ?_⟩
  intro _ hold hne
  rw [holdsAt_three] at hold
  obtain ⟨px, py, pz⟩ := hold
  refine ⟨?_, ?_⟩
  · rw [hB]
    simp [hne]
  · rw [isPrintable_of_rd px py pz]
    decide

/-- Witness for C10: the buffer `41 EF BB BF` at position 1. -/
theorem isBom_iff_witness :
    3 ≤ ([0x41, 0xEF, 0xBB, 0xBF] : List Byte).length ∧
    isBom [0x41, 0xEF, 0xBB, 0xBF] 1 = some false ∧
    isPrintable [0x41, 0xEF, 0xBB, 0xBF] 1 = some false :=
  ⟨by decide, (isBom_iff [0x41, 0xEF, 0xBB, 0xBF] 1 (by decide)).2.2 (by decide) (by decide)
    (by decide)⟩

/-! ## The printable class on well-formed UTF-8 -/

/-- The value of `isPrintable` from the byte at `i` alone, when that byte is
none of `C2`, `ED`, `EF`: no other index expression is evaluated. -/
theorem isPrintable_of_rd_one {b : List Byte} {i : Int} {x : Byte} (hx : rd b i = some x)
    (n1 : x ≠ 0xC2) (n2 : x ≠ 0xED) (n3 : x ≠ 0xEF) :
    isPrintable b i = some (x == 0x0A || (decide (x ≥ 0x20) && decide (x ≤ 0x7E)) ||
      (decide (x > 0xC2) && decide (x < 0xED)) || x == 0xEE) := by
  have c1 : (x == 0xC2) = false := by simpa using n1
  have c2 : (x == 0xED) = false := by simpa using n2
  have c3 : (x == 0xEF) = false := by simpa using n3
  simp only [isPrintable, byteIs_of_rd hx, c1, c2, c3, andM_false_left, andM_some_some,
    orM_some_some]
  simp [Bool.or_assoc, Bool.and_assoc]

/-- The value of `isPrintable` from the bytes at `i` and `i + 1`, when the
byte at `i` is not `EF`: the index expression `b[i+2]` is not evaluated. -/
theorem isPrintable_of_rd_two {b : List Byte} {i : Int} {x y : Byte} (hx : rd b i = some x)
    (hy : rd b (i + 1) = some y) (n3 : x ≠ 0xEF) :
    isPrintable b i = some (x == 0x0A || (decide (x ≥ 0x20) && decide (x ≤ 0x7E)) ||
      (x == 0xC2 && decide (y ≥ 0xA0)) || (decide (x > 0xC2) && decide (x < 0xED)) ||
      (x == 0xED && decide (y < 0xA0)) || x == 0xEE) := by
  have c3 : (x == 0xEF) = false := by simpa using n3
  simp only [isPrintable, byteIs_of_rd hx, byteIs_of_rd hy, c3, andM_false_left,
    andM_some_some, orM_some_some]
  simp [Bool.or_assoc, Bool.and_assoc]

/-- C1: when the buffer holds at `i` the well-formed UTF-8 encoding of a
Unicode scalar value `c`, `isPrintable b i` is true exactly when `c = 0A`, or
`20 ≤ c ≤ 7E`, or `A0 ≤ c ≤ D7FF`, or `E000 ≤ c ≤ FFFD` and `c ≠ FEFF`. In
particular it is false for `c ≥ 10000`, for U+0080 to U+009F, and for U+FEFF,
U+FFFE and U+FFFF. -/
theorem isPrintable_utf8Encode (c : Nat) (hc : isScalar c) (b : List Byte) (i : Int)
    (hb : holdsAt b i (utf8Encode c)) :
    isPrintable b i = some (decide (c = 0x0A ∨ (0x20 ≤ c ∧ c ≤ 0x7E) ∨
      (0xA0 ≤ c ∧ c ≤ 0xD7FF) ∨ (0xE000 ≤ c ∧ c ≤ 0xFFFD ∧ c ≠ 0xFEFF))) ∧
    ((0x10000 ≤ c ∨ (0x80 ≤ c ∧ c ≤ 0x9F) ∨ c = 0xFEFF ∨ c = 0xFFFE ∨ c = 0xFFFF) →
      isPrintable b i = some false) := by
  have main : isPrintable b i = some (decide (c = 0x0A ∨ (0x20 ≤ c ∧ c ≤ 0x7E) ∨
      (0xA0 ≤ c ∧ c ≤ 0xD7FF) ∨ (0xE000 ≤ c ∧ c ≤ 0xFFFD ∧ c ≠ 0xFEFF))) := by
    obtain ⟨hmax, hsur⟩ := hc
    unfold utf8Encode at hb
    by_cases h1 : c ≤ 0x7F
    · rw [if_pos h1, holdsAt_one] at hb
      rw [isPrintable_of_rd_one hb (toByte_ne _ _ (by simp; omega))
        (toByte_ne _ _ (by simp; omega)) (toByte_ne _ _ (by simp; omega))]
      refine congrArg some ?_
      rw [Bool.eq_iff_iff]
      simp [byte_le_iff, byte_lt_iff, Fin.ext_iff, toByte_val]
      omega
    · rw [if_neg h1] at hb
      by_cases h2 : c ≤ 0x7FF
      · rw [if_pos h2, holdsAt_two] at hb
        rw [isPrintable_of_rd_two hb.1 hb.2 (toByte_ne _ _ (by simp; omega))]
        refine congrArg some ?_
        rw [Bool.eq_iff_iff]
        simp [byte_le_iff, byte_lt_iff, Fin.ext_iff, toByte_val]
        omega
      · rw [if_neg h2] at hb
        by_cases h3 : c ≤ 0xFFFF
        · rw [if_pos h3, holdsAt_three] at hb
          rw [isPrintable_of_rd hb.1 hb.2.1 hb.2.2]
          refine congrArg some ?_
          rw [Bool.eq_iff_iff]
          simp [byte_le_iff, byte_lt_iff, Fin.ext_iff, toByte_val]
          omega
        · rw [if_neg h3, holdsAt_four] at hb
          rw [isPrintable_of_rd_one hb.1 (toByte_ne _ _ (by simp; omega))
            (toByte_ne _ _ (by simp; omega)) (toByte_ne _ _ (by simp; omega))]
          refine congrArg some ?_
          rw [Bool.eq_iff_iff]
          simp [byte_le_iff, byte_lt_iff, Fin.ext_iff, toByte_val]
          omega
  refine ⟨main, ?_⟩
  intro hcase
  rw [main]
  simp
  omega

/-- Witness for C1: U+FFFD (encoded `EF BF BD`) at position 1 of the buffer
`41 EF BF BD`. -/
theorem isPrintable_utf8Encode_witness :
    (isScalar 0xFFFD ∧ holdsAt [0x41, 0xEF, 0xBF, 0xBD] 1 (utf8Encode 0xFFFD)) ∧
    isPrintable [0x41, 0xEF, 0xBF, 0xBD] 1 = some true :=
  ⟨by decide, (isPrintable_utf8Encode 0xFFFD (by decide) [0x41, 0xEF, 0xBF, 0xBD] 1
    (by decide)).1⟩

/-! ## Digits and hexadecimal digits -/

theorem isDigit_of_rd {b : List Byte} {i : Int} {x : Byte} (hx : rd b i = some x) :
    isDigit b i = some (decide (x ≥ 0x30) && decide (x ≤ 0x39)) := by
  simp only [isDigit, byteIs_of_rd hx, andM_some_some]

theorem isHex_of_rd {b : List Byte} {i : Int} {x : Byte} (hx : rd b i = some x) :
    isHex b i = some ((decide (x ≥ 0x30) && decide (x ≤ 0x39)) ||
      (decide (x ≥ 0x41) && decide (x ≤ 0x46)) ||
      (decide (x ≥ 0x61) && decide (x ≤ 0x66))) := by
  simp only [isHex, byteIs_of_rd hx, andM_some_some, orM_some_some]
  simp [Bool.or_assoc]

theorem isAlpha_of_rd {b : List Byte} {i : Int} {x : Byte} (hx : rd b i = some x) :
    isAlpha b i = some ((decide (x ≥ 0x30) && decide (x ≤ 0x39)) ||
      (decide (x ≥ 0x41) && decide (x ≤ 0x5A)) ||
      (decide (x ≥ 0x61) && decide (x ≤ 0x7A)) || x == 0x5F || x == 0x2D) := by
  simp only [isAlpha, byteIs_of_rd hx, andM_some_some, orM_some_some]
  simp [Bool.or_assoc]

theorem asHex_of_rd {b : List Byte} {i : Int} {x : Byte} (hx : rd b i = some x) :
    asHex b i = some (if x ≥ 0x41 && x ≤ 0x46 then (x.val : Int) - 0x41 + 10
      else if x ≥ 0x61 && x ≤ 0x66 then (x.val : Int) - 0x61 + 10
      else (x.val : Int) - 0x30) := by
  simp only [asHex, hx, Option.map_some']

theorem asDigit_of_rd {b : List Byte} {i : Int} {x : Byte} (hx : rd b i = some x) :
    asDigit b i = some ((x.val : Int) - 0x30) := by
  simp only [asDigit, hx, Option.map_some']

theorem hexDigitsLower_eq : hexDigitsLower =
    [0x30, 0x31, 0x32, 0x33, 0x34, 0x35, 0x36, 0x37, 0x38, 0x39,
      0x61, 0x62, 0x63, 0x64, 0x65, 0x66] := by
  decide

theorem hexDigitsUpper_eq : hexDigitsUpper =
    [0x30, 0x31, 0x32, 0x33, 0x34, 0x35, 0x36, 0x37, 0x38, 0x39,
      0x41, 0x42, 0x43, 0x44, 0x45, 0x46] := by
  decide

set_option maxRecDepth 100000 in
theorem hex_value_range : ∀ x : Byte,
    ((decide (x ≥ 0x30) && decide (x ≤ 0x39)) || (decide (x ≥ 0x41) && decide (x ≤ 0x46)) ||
      (decide (x ≥ 0x61) && decide (x ≤ 0x66))) = true →
    0 ≤ (if x ≥ 0x41 && x ≤ 0x46 then (x.val : Int) - 0x41 + 10
      else if x ≥ 0x61 && x ≤ 0x66 then (x.val : Int) - 0x61 + 10
      else (x.val : Int) - 0x30) ∧
    (if x ≥ 0x41 && x ≤ 0x46 then (x.val : Int) - 0x41 + 10
      else if x ≥ 0x61 && x ≤ 0x66 then (x.val : Int) - 0x61 + 10
      else (x.val : Int) - 0x30) ≤ 15 := by
  decide

set_option maxRecDepth 100000 in
theorem hex_value_digit : ∀ x : Byte,
    (decide (x ≥ 0x30) && decide (x ≤ 0x39)) = true →
    (if x ≥ 0x41 && x ≤ 0x46 then (x.val : Int) - 0x41 + 10
      else if x ≥ 0x61 && x ≤ 0x66 then (x.val : Int) - 0x61 + 10
      else (x.val : Int) - 0x30) = (x.val : Int) - 0x30 := by
  decide

/-- C11: `asHex` is the standard hexadecimal decode. At an in-bounds position
holding the `n`-th character of `0123456789abcdef` or of `0123456789ABCDEF`
(`n` from 0 to 15) it returns `n`; where `isHex` holds its value is between 0
and 15; and where `isDigit` holds it equals `asDigit`. -/
theorem asHex_decode (b : List Byte) (i : Int) (h0 : 0 ≤ i) (h : i < b.length) :
    (∀ n : Nat, n < 16 →
      (hexDigitsLower[n]? = some (byteAt b i) ∨ hexDigitsUpper[n]? = some (byteAt b i)) →
      asHex b i = some (n : Int)) ∧
    (isHex b i = some true → ∃ v : Int, asHex b i = some v ∧ 0 ≤ v ∧ v ≤ 15) ∧
    (isDigit b i = some true →
      ∃ v : Int, asHex b i = some v ∧ asDigit b i = some v) := by
  have hx := rd_eq_byteAt b i h0 h
  rw [asHex_of_rd hx, asDigit_of_rd hx, isHex_of_rd hx, isDigit_of_rd hx]
  generalize byteAt b i = x at *
  refine ⟨?_, ?_, ?_⟩
  · intro n hn hc
    rw [hexDigitsLower_eq, hexDigitsUpper_eq] at hc
    interval_cases n <;> simp at hc <;> rcases hc with rfl | rfl <;> rfl
  · intro hh
    exact ⟨_, rfl, hex_value_range x (Option.some.inj hh)⟩
  · intro hd
    exact ⟨_, rfl, congrArg some (hex_value_digit x (Option.some.inj hd)).symm⟩

/-- Witness for C11: the character `f` (byte `66`) at position 1 of the
buffer `41 66`. -/
theorem asHex_decode_witness :
    ((0 : Int) ≤ 1 ∧ (1 : Int) < ([0x41, 0x66] : List Byte).length) ∧
    asHex [0x41, 0x66] 1 = some 15 :=
  ⟨by decide, (asHex_decode [0x41, 0x66] 1 (by decide) (by decide)).1 15 (by decide)
    (by decide)⟩

set_option maxRecDepth 100000 in
theorem digit_value_range : ∀ x : Byte,
    -48 ≤ (x.val : Int) - 0x30 ∧ (x.val : Int) - 0x30 ≤ 207 ∧
    (x < 0x30 → (x.val : Int) - 0x30 < 0) ∧
    (decide (x ≥ 0x30) && decide (x ≤ 0x39)) =
      decide (0 ≤ (x.val : Int) - 0x30 ∧ (x.val : Int) - 0x30 ≤ 9) := by
  decide

/-- C12: at an in-bounds position `asDigit` returns the byte value minus 48 as
an integer, without wraparound: the result lies between -48 and 207 and is
negative for bytes below `0` (byte `30`). Consequently `isDigit` holds exactly
when the value of `asDigit` is between 0 and 9. -/
theorem asDigit_eq (b : List Byte) (i : Int) (h0 : 0 ≤ i) (h : i < b.length) :
    asDigit b i = some (((byteAt b i).val : Int) - 48) ∧
    (∃ v : Int, asDigit b i = some v ∧ -48 ≤ v ∧ v ≤ 207 ∧ (byteAt b i < 0x30 → v < 0) ∧
      isDigit b i = some (decide (0 ≤ v ∧ v ≤ 9))) := by
  have hx := rd_eq_byteAt b i h0 h
  rw [asDigit_of_rd hx, isDigit_of_rd hx]
  obtain ⟨r1, r2, r3, r4⟩ := digit_value_range (byteAt b i)
  exact ⟨rfl, _, rfl, r1, r2, r3, congrArg some r4⟩

/-- Witness for C12: the byte `2F` (just below the character `0`) at position 0,
where `asDigit` is -1. -/
theorem asDigit_eq_witness :
    ((0 : Int) ≤ 0 ∧ (0 : Int) < ([0x2F] : List Byte).length) ∧
    asDigit [0x2F] 0 = some (-1) :=
  ⟨by decide, (asDigit_eq [0x2F] 0 (by decide) (by decide)).1⟩

/-! ## CR-LF pairs -/

/-- The two index expressions `b[i]`, `b[i+1]` do not panic when `i + 1` is
in bounds. -/
theorem rd_two (b : List Byte) (i : Int) (h0 : 0 ≤ i) (h : i + 1 < b.length) :
    rd b i = some (byteAt b i) ∧ rd b (i + 1) = some (byteAt b (i + 1)) :=
  ⟨rd_eq_byteAt b i h0 (by omega), rd_eq_byteAt b (i + 1) (by omega) h⟩

/-- The value of `isCrlf` when the two bytes at `i` can be read. -/
theorem isCrlf_of_rd {b : List Byte} {i : Int} {x y : Byte} (hx : rd b i = some x)
    (hy : rd b (i + 1) = some y) : isCrlf b i = some (x == 0x0D && y == 0x0A) := by
  simp only [isCrlf, byteIs_of_rd hx, byteIs_of_rd hy, andM_some_some]

/-- C13: with `i + 1` in bounds, `isCrlf b i` is true exactly when
`b[i] = 0D` and `b[i+1] = 0A`; it is false whenever `b[i] = 0A`, and false for
a CR that is not followed by LF. -/
theorem isCrlf_iff (b : List Byte) (i : Int) (h0 : 0 ≤ i) (h : i + 1 < b.length) :
    isCrlf b i = some (decide (byteAt b i = 0x0D ∧ byteAt b (i + 1) = 0x0A)) ∧
    (byteAt b i = 0x0A → isCrlf b i = some false) ∧
    (byteAt b i = 0x0D → byteAt b (i + 1) ≠ 0x0A → isCrlf b i = some false) := by
  obtain ⟨hx, hy⟩ := rd_two b i h0 h
  rw [isCrlf_of_rd hx hy]
  generalize byteAt b i = x
  generalize byteAt b (i + 1) = y
  refine ⟨congrArg some ?_, ?_, ?_⟩
  · rw [Bool.eq_iff_iff]
    simp
  · rintro rfl
    simp
  · rintro rfl hne
    simp [hne]

/-- Witness for C13: a bare CR, the buffer `0D 41`, at position 0. -/
theorem isCrlf_iff_witness :
    ((0 : Int) ≤ 0 ∧ (0 : Int) + 1 < ([0x0D, 0x41] : List Byte).length) ∧
    isCrlf [0x0D, 0x41] 0 = some false :=
  ⟨by decide, (isCrlf_iff [0x0D, 0x41] 0 (by decide) (by decide)).2.2 (by decide)
    (by decide)⟩

/-! ## No failure under the lookahead precondition -/

/-- The value of `isBom` when the first three bytes of the buffer can be read. -/
theorem isBom_of_rd {b : List Byte} {x y z : Byte} (i : Int) (hx : rd b 0 = some x)
    (hy : rd b 1 = some y) (hz : rd b 2 = some z) :
    isBom b i = some (x == 0xEF && (y == 0xBB && z == 0xBF)) := by
  simp only [isBom, byteIs_of_rd hx, byteIs_of_rd hy, byteIs_of_rd hz, andM_some_some]

/-- C14: under the caller's lookahead precondition (`len(b) ≥ 3` and `i + 2`
in bounds) none of the eighteen functions indexes the buffer out of range:
each one returns a value. -/
theorem returns_under_lookahead (b : List Byte) (i : Int) (hl : 3 ≤ b.length) (h0 : 0 ≤ i)
    (h : i + 2 < b.length) :
    (isAlpha b i).isSome ∧ (isDigit b i).isSome ∧ (asDigit b i).isSome ∧
    (isHex b i).isSome ∧ (asHex b i).isSome ∧ (isASCII b i).isSome ∧
    (isPrintable b i).isSome ∧ (isZ b i).isSome ∧ (isBom b i).isSome ∧
    (isSpace b i).isSome ∧ (isColon b i).isSome ∧ (isTab b i).isSome ∧
    (isBlank b i).isSome ∧ (isBreak b i).isSome ∧ (isCrlf b i).isSome ∧
    (isBreakz b i).isSome ∧ (isSpacez b i).isSome ∧ (isBlankz b i).isSome := by
  obtain ⟨hx, hy, hz⟩ := rd_three b i h0 h
  have hl2 : (0 : Int) + 2 < b.length := by omega
  obtain ⟨gx, gy, gz⟩ := rd_three b 0 (le_refl 0) hl2
  simp only [zero_add] at gy gz
  rw [isAlpha_of_rd hx, isDigit_of_rd hx, asDigit_of_rd hx, isHex_of_rd hx, asHex_of_rd hx,
    isPrintable_of_rd hx hy hz, isBom_of_rd i gx gy gz, isBreak_of_rd hx hy hz,
    isCrlf_of_rd hx hy, isBreakz_of_rd hx hy hz, isSpacez_of_rd hx hy hz,
    isBlankz_of_rd hx hy hz]
  simp only [isASCII, isZ, isSpace, isColon, isTab, isBlank, byteIs_of_rd hx, orM_some_some,
    Option.isSome_some, and_self]

/-- Witness for C14: the buffer `ED 9F BF` at position 0. -/
theorem returns_under_lookahead_witness :
    (3 ≤ ([0xED, 0x9F, 0xBF] : List Byte).length ∧ (0 : Int) ≤ 0 ∧
      (0 : Int) + 2 < ([0xED, 0x9F, 0xBF] : List Byte).length) ∧
    (isPrintable [0xED, 0x9F, 0xBF] 0).isSome :=
  ⟨by decide, (returns_under_lookahead [0xED, 0x9F, 0xBF] 0 (by decide) (by decide)
    (by decide)).2.2.2.2.2.2.1⟩

/-! ## The verdicts depend on three bytes only -/

/-- C15: the verdicts are a function of the three bytes at `i`, `i+1`, `i+2`.
For two buffers and positions (both with two bytes of lookahead in bounds)
that agree on these three bytes, each of `isPrintable`, `isBreak`, `isCrlf`,
`isBreakz`, `isSpacez` and `isBlankz` returns the same value on both. -/
theorem verdict_of_three_bytes (b c : List Byte) (i j : Int) (hi0 : 0 ≤ i)
    (hi : i + 2 < b.length) (hj0 : 0 ≤ j) (hj : j + 2 < c.length)
    (e0 : byteAt b i = byteAt c j) (e1 : byteAt b (i + 1) = byteAt c (j + 1))
    (e2 : byteAt b (i + 2) = byteAt c (j + 2)) :
    (∃ v, isPrintable b i = some v ∧ isPrintable c j = some v) ∧
    (∃ v, isBreak b i = some v ∧ isBreak c j = some v) ∧
    (∃ v, isCrlf b i = some v ∧ isCrlf c j = some v) ∧
    (∃ v, isBreakz b i = some v ∧ isBreakz c j = some v) ∧
    (∃ v, isSpacez b i = some v ∧ isSpacez c j = some v) ∧
    (∃ v, isBlankz b i = some v ∧ isBlankz c j = some v) := by
  obtain ⟨hx, hy, hz⟩ := rd_three b i hi0 hi
  obtain ⟨gx, gy, gz⟩ := rd_three c j hj0 hj
  rw [e0] at hx
  rw [e1] at hy
  rw [e2] at hz
  rw [isPrintable_of_rd hx hy hz, isPrintable_of_rd gx gy gz, isBreak_of_rd hx hy hz,
    isBreak_of_rd gx gy gz, isCrlf_of_rd hx hy, isCrlf_of_rd gx gy, isBreakz_of_rd hx hy hz,
    isBreakz_of_rd gx gy gz, isSpacez_of_rd hx hy hz, isSpacez_of_rd gx gy gz,
    isBlankz_of_rd hx hy hz, isBlankz_of_rd gx gy gz]
  exact ⟨⟨_, rfl, rfl⟩, ⟨_, rfl, rfl⟩, ⟨_, rfl, rfl⟩, ⟨_, rfl, rfl⟩, ⟨_, rfl, rfl⟩,
    ⟨_, rfl, rfl⟩⟩

/-- Witness for C15: `E2 80 A8` at position 1 of `41 E2 80 A8 42` and at
position 0 of `E2 80 A8`. -/
theorem verdict_of_three_bytes_witness :
    ∃ v, isBreak [0x41, 0xE2, 0x80, 0xA8, 0x42] 1 = some v ∧
      isBreak [0xE2, 0x80, 0xA8] 0 = some v :=
  (verdict_of_three_bytes [0x41, 0xE2, 0x80, 0xA8, 0x42] [0xE2, 0x80, 0xA8] 1 0 (by decide)
    (by decide) (by decide) (by decide) (by decide) (by decide) (by decide)).2.1

/-! ## Evaluation from the byte at `i` alone -/

/-- The value of `isBreak` from the byte at `i` alone, when that byte is
neither `C2` nor `E2`: no other index expression is evaluated. -/
theorem isBreak_of_rd_one {b : List Byte} {i : Int} {x : Byte} (hx : rd b i = some x)
    (n1 : x ≠ 0xC2) (n2 : x ≠ 0xE2) : isBreak b i = some (x == 0x0D || x == 0x0A) := by
  have c1 : (x == 0xC2) = false := by simpa using n1
  have c2 : (x == 0xE2) = false := by simpa using n2
  simp only [isBreak, byteIs_of_rd hx, c1, c2, andM_false_left, orM_some_some, Bool.or_false]

/-- The value of `isBreakz` from the byte at `i` alone. -/
theorem isBreakz_of_rd_one {b : List Byte} {i : Int} {x : Byte} (hx : rd b i = some x)
    (n1 : x ≠ 0xC2) (n2 : x ≠ 0xE2) :
    isBreakz b i = some (x == 0x0D || (x == 0x0A || x == 0x00)) := by
  have c1 : (x == 0xC2) = false := by simpa using n1
  have c2 : (x == 0xE2) = false := by simpa using n2
  simp only [isBreakz, byteIs_of_rd hx, c1, c2, andM_false_left, orM_some_some, Bool.false_or]

/-- The value of `isSpacez` from the byte at `i` alone. -/
theorem isSpacez_of_rd_one {b : List Byte} {i : Int} {x : Byte} (hx : rd b i = some x)
    (n1 : x ≠ 0xC2) (n2 : x ≠ 0xE2) :
    isSpacez b i = some (x == 0x20 || (x == 0x0D || (x == 0x0A || x == 0x00))) := by
  have c1 : (x == 0xC2) = false := by simpa using n1
  have c2 : (x == 0xE2) = false := by simpa using n2
  simp only [isSpacez, byteIs_of_rd hx, c1, c2, andM_false_left, orM_some_some, Bool.false_or]

/-- The value of `isBlankz` from the byte at `i` alone. -/
theorem isBlankz_of_rd_one {b : List Byte} {i : Int} {x : Byte} (hx : rd b i = some x)
    (n1 : x ≠ 0xC2) (n2 : x ≠ 0xE2) :
    isBlankz b i =
      some (x == 0x20 || (x == 0x09 || (x == 0x0D || (x == 0x0A || x == 0x00)))) := by
  have c1 : (x == 0xC2) = false := by simpa using n1
  have c2 : (x == 0xE2) = false := by simpa using n2
  simp only [isBlankz, byteIs_of_rd hx, c1, c2, andM_false_left, orM_some_some, Bool.false_or]

/-! ## Width at line breaks and at printable positions -/

/-- C16: with `i + 2` in bounds, where `isBreak b i` holds the buffer holds at
`i` the encoding of one of CR, LF, NEL, LS, PS and `width b[i]` is the byte
length of that encoding: 1 for CR and LF, 2 for NEL (`C2 85`), 3 for LS and
PS (`E2 80 A8`, `E2 80 A9`). In particular `width b[i]` is not 0. -/
theorem width_at_break (b : List Byte) (i : Int) (h0 : 0 ≤ i) (h : i + 2 < b.length)
    (hb : isBreak b i = some true) :
    (∃ c ∈ [0x0D, 0x0A, 0x85, 0x2028, 0x2029],
      holdsAt b i (utf8Encode c) ∧ width (byteAt b i) = (utf8Encode c).length) ∧
    ((holdsAt b i [0x0D] ∨ holdsAt b i [0x0A]) → width (byteAt b i) = 1) ∧
    (holdsAt b i [0xC2, 0x85] → width (byteAt b i) = 2) ∧
    ((holdsAt b i [0xE2, 0x80, 0xA8] ∨ holdsAt b i [0xE2, 0x80, 0xA9]) →
      width (byteAt b i) = 3) ∧
    width (byteAt b i) ≠ 0 := by
  obtain ⟨hx, hy, hz⟩ := rd_three b i h0 h
  have e1 : utf8Encode 0x0D = [0x0D] := by decide
  have e2 : utf8Encode 0x0A = [0x0A] := by decide
  have e3 : utf8Encode 0x85 = [0xC2, 0x85] := by decide
  have e4 : utf8Encode 0x2028 = [0xE2, 0x80, 0xA8] := by decide
  have e5 : utf8Encode 0x2029 = [0xE2, 0x80, 0xA9] := by decide
  have w1 : width 0x0D = 1 := by decide
  have w2 : width 0x0A = 1 := by decide
  have w3 : width 0xC2 = 2 := by decide
  have w4 : width 0xE2 = 3 := by decide
  rw [isBreak_of_rd hx hy hz] at hb
  simp only [holdsAt_one, holdsAt_two, holdsAt_three, hx, hy, hz, Option.some.injEq]
  have hb2 := Option.some.inj hb
  simp only [Bool.or_eq_true, Bool.and_eq_true, beq_iff_eq] at hb2
  refine ⟨?_, ?_, ?_, ?_, ?_⟩
  · rcases hb2 with (((p | p) | p) | p) | p
    · exact ⟨0x0D, by simp, by rw [e1, holdsAt_one, hx, p, w1]; simp⟩
    · exact ⟨0x0A, by simp, by rw [e2, holdsAt_one, hx, p, w2]; simp⟩
    · exact ⟨0x85, by simp, by rw [e3, holdsAt_two, hx, hy, p.1, p.2, w3]; simp⟩
    · exact ⟨0x2028, by simp,
        by rw [e4, holdsAt_three, hx, hy, hz, p.1.1, p.1.2, p.2, w4]; simp⟩
    · exact ⟨0x2029, by simp,
        by rw [e5, holdsAt_three, hx, hy, hz, p.1.1, p.1.2, p.2, w4]; simp⟩
  · rintro (p | p) <;> rw [p] <;> decide
  · rintro ⟨p, _⟩
    rw [p]
    decide
  · rintro (⟨p, _⟩ | ⟨p, _⟩) <;> rw [p] <;> decide
  · rcases hb2 with (((p | p) | p) | p) | p
    · rw [p]; decide
    · rw [p]; decide
    · rw [p.1]; decide
    · rw [p.1.1]; decide
    · rw [p.1.1]; decide

/-- Witness for C16: NEL, the buffer `C2 85 41`, at position 0. -/
theorem width_at_break_witness :
    ((0 : Int) ≤ 0 ∧ (0 : Int) + 2 < ([0xC2, 0x85, 0x41] : List Byte).length ∧
      isBreak [0xC2, 0x85, 0x41] 0 = some true) ∧
    (holdsAt [0xC2, 0x85, 0x41] 0 [0xC2, 0x85] → width (byteAt [0xC2, 0x85, 0x41] 0) = 2) :=
  ⟨by decide, (width_at_break [0xC2, 0x85, 0x41] 0 (by decide) (by decide) (by decide)).2.2.1⟩

set_option maxRecDepth 100000 in
/-- `width` on the bytes that can start a printable character. -/
theorem width_of_printable_lead : ∀ x : Byte,
    (x = 0x0A ∨ (0x20 ≤ x ∧ x ≤ 0x7E) ∨ (0xC2 ≤ x ∧ x ≤ 0xEF)) →
    (width x = 1 ∨ width x = 2 ∨ width x = 3) ∧ width x ≠ 0 ∧ width x ≠ 4 := by
  decide

/-- C17: with `i + 2` in bounds, where `isPrintable b i` holds `width b[i]`
is 1, 2 or 3: it is neither 0 nor 4. -/
theorem width_of_printable (b : List Byte) (i : Int) (h0 : 0 ≤ i) (h : i + 2 < b.length)
    (hp : isPrintable b i = some true) :
    (width (byteAt b i) = 1 ∨ width (byteAt b i) = 2 ∨ width (byteAt b i) = 3) ∧
    width (byteAt b i) ≠ 0 ∧ width (byteAt b i) ≠ 4 := by
  obtain ⟨hx, hy, hz⟩ := rd_three b i h0 h
  rw [isPrintable_of_rd hx hy hz] at hp
  have hp2 := Option.some.inj hp
  apply width_of_printable_lead
  generalize byteAt b i = x at hp2 ⊢
  generalize byteAt b (i + 1) = y at hp2
  generalize byteAt b (i + 2) = z at hp2
  simp only [Bool.or_eq_true, Bool.and_eq_true, beq_iff_eq, decide_eq_true_eq] at hp2
  simp only [ge_iff_le, gt_iff_lt, Fin.le_def, Fin.lt_def, Fin.ext_iff] at hp2 ⊢
  rcases hp2 with (((((p | p) | p) | p) | p) | p) | p
  · left; exact p
  · right; left; exact p
  · right; right; rw [p.1]; decide
  · right; right; exact ⟨Nat.le_of_lt p.1, by have := p.2; omega⟩
  · right; right; rw [p.1]; decide
  · right; right; rw [p]; decide
  · right; right; rw [p.1.1]; decide

/-- Witness for C17: U+FFFD, the buffer `EF BF BD`, at position 0. -/
theorem width_of_printable_witness :
    ((0 : Int) ≤ 0 ∧ (0 : Int) + 2 < ([0xEF, 0xBF, 0xBD] : List Byte).length ∧
      isPrintable [0xEF, 0xBF, 0xBD] 0 = some true) ∧
    width (byteAt [0xEF, 0xBF, 0xBD] 0) ≠ 0 :=
  ⟨by decide, (width_of_printable [0xEF, 0xBF, 0xBD] 0 (by decide) (by decide)
    (by decide)).2.1⟩

/-- C19: with `i + 2` in bounds, where `isCrlf b i` holds both `isBreak b i`
and `isBreak b (i+1)` hold and `width b[i] = width b[i+1] = 1`: a CR-LF pair
is two consecutive one-byte line breaks. -/
theorem crlf_two_breaks (b : List Byte) (i : Int) (h0 : 0 ≤ i) (h : i + 2 < b.length)
    (hc : isCrlf b i = some true) :
    isBreak b i = some true ∧ isBreak b (i + 1) = some true ∧
    width (byteAt b i) = 1 ∧ width (byteAt b (i + 1)) = 1 := by
  obtain ⟨hx, hy, _⟩ := rd_three b i h0 h
  rw [isCrlf_of_rd hx hy] at hc
  have hc2 := Option.some.inj hc
  simp only [Bool.and_eq_true, beq_iff_eq] at hc2
  rw [hc2.1] at hx ⊢
  rw [hc2.2] at hy ⊢
  rw [isBreak_of_rd_one hx (by decide) (by decide),
    isBreak_of_rd_one hy (by decide) (by decide)]
  decide

/-- Witness for C19: the buffer `0D 0A 41` at position 0. -/
theorem crlf_two_breaks_witness :
    ((0 : Int) ≤ 0 ∧ (0 : Int) + 2 < ([0x0D, 0x0A, 0x41] : List Byte).length ∧
      isCrlf [0x0D, 0x0A, 0x41] 0 = some true) ∧
    isBreak [0x0D, 0x0A, 0x41] (0 + 1) = some true :=
  ⟨by decide, (crlf_two_breaks [0x0D, 0x0A, 0x41] 0 (by decide) (by decide)
    (by decide)).2.1⟩

/-! ## No lookahead behind a single-byte character -/

set_option maxRecDepth 100000 in
theorem ascii_not_lead : ∀ x : Byte, x ≤ 0x7F →
    x ≠ 0xC2 ∧ x ≠ 0xE2 ∧ x ≠ 0xED ∧ x ≠ 0xEF := by
  decide

theorem rd_singleton (x : Byte) : rd [x] 0 = some x := by
  simp [rd]

/-- C18: lookahead is only performed behind a multi-byte leading byte. At an
in-bounds position `i` (the last position of the buffer included) whose byte
is at most `7F`, or more generally is none of `C2`, `E2`, `ED`, `EF`, each of
`isBreak`, `isBreakz`, `isSpacez`, `isBlankz` and `isPrintable` returns a
value, and it is the value returned on the one-byte buffer made of `b[i]`
alone, in which no index other than that of this byte can be read. -/
theorem no_lookahead_on_ascii (b : List Byte) (i : Int) (h0 : 0 ≤ i) (h : i < b.length)
    (ha : byteAt b i ≤ 0x7F ∨
      (byteAt b i ≠ 0xC2 ∧ byteAt b i ≠ 0xE2 ∧ byteAt b i ≠ 0xED ∧ byteAt b i ≠ 0xEF)) :
    (∃ v, isBreak b i = some v ∧ isBreak [byteAt b i] 0 = some v) ∧
    (∃ v, isBreakz b i = some v ∧ isBreakz [byteAt b i] 0 = some v) ∧
    (∃ v, isSpacez b i = some v ∧ isSpacez [byteAt b i] 0 = some v) ∧
    (∃ v, isBlankz b i = some v ∧ isBlankz [byteAt b i] 0 = some v) ∧
    (∃ v, isPrintable b i = some v ∧ isPrintable [byteAt b i] 0 = some v) := by
  have hx := rd_eq_byteAt b i h0 h
  have hs := rd_singleton (byteAt b i)
  obtain ⟨n1, n2, n3, n4⟩ : byteAt b i ≠ 0xC2 ∧ byteAt b i ≠ 0xE2 ∧ byteAt b i ≠ 0xED ∧
      byteAt b i ≠ 0xEF := by
    rcases ha with ha | ha
    · exact ascii_not_lead _ ha
    · exact ha
  rw [isBreak_of_rd_one hx n1 n2, isBreak_of_rd_one hs n1 n2, isBreakz_of_rd_one hx n1 n2,
    isBreakz_of_rd_one hs n1 n2, isSpacez_of_rd_one hx n1 n2, isSpacez_of_rd_one hs n1 n2,
    isBlankz_of_rd_one hx n1 n2, isBlankz_of_rd_one hs n1 n2,
    isPrintable_of_rd_one hx n1 n3 n4, isPrintable_of_rd_one hs n1 n3 n4]
  exact ⟨⟨_, rfl, rfl⟩, ⟨_, rfl, rfl⟩, ⟨_, rfl, rfl⟩, ⟨_, rfl, rfl⟩, ⟨_, rfl, rfl⟩⟩

/-- Witness for C18: the last position of the buffer `C2 0A`. -/
theorem no_lookahead_on_ascii_witness :
    ((0 : Int) ≤ 1 ∧ (1 : Int) < ([0xC2, 0x0A] : List Byte).length ∧
      byteAt [0xC2, 0x0A] 1 ≤ 0x7F) ∧
    ∃ v, isPrintable [0xC2, 0x0A] 1 = some v ∧ isPrintable [byteAt [0xC2, 0x0A] 1] 0 = some v :=
  ⟨by decide, (no_lookahead_on_ascii [0xC2, 0x0A] 1 (by decide) (by decide)
    (Or.inl (by decide))).2.2.2.2⟩

/-! ## Nesting of the primitive classes -/

set_option maxRecDepth 100000 in
theorem digit_hex_alpha : ∀ x : Byte,
    ((decide (x ≥ 0x30) && decide (x ≤ 0x39)) = true →
      ((decide (x ≥ 0x30) && decide (x ≤ 0x39)) || (decide (x ≥ 0x41) && decide (x ≤ 0x46)) ||
        (decide (x ≥ 0x61) && decide (x ≤ 0x66))) = true) ∧
    (((decide (x ≥ 0x30) && decide (x ≤ 0x39)) || (decide (x ≥ 0x41) && decide (x ≤ 0x46)) ||
        (decide (x ≥ 0x61) && decide (x ≤ 0x66))) = true →
      ((decide (x ≥ 0x30) && decide (x ≤ 0x39)) || (decide (x ≥ 0x41) && decide (x ≤ 0x5A)) ||
        (decide (x ≥ 0x61) && decide (x ≤ 0x7A)) || x == 0x5F || x == 0x2D) = true) := by
  decide

set_option maxRecDepth 100000 in
theorem alpha_byte : ∀ x : Byte,
    ((decide (x ≥ 0x30) && decide (x ≤ 0x39)) || (decide (x ≥ 0x41) && decide (x ≤ 0x5A)) ||
      (decide (x ≥ 0x61) && decide (x ≤ 0x7A)) || x == 0x5F || x == 0x2D) = true →
    (x ≠ 0xC2 ∧ x ≠ 0xE2 ∧ x ≠ 0xED ∧ x ≠ 0xEF) ∧
    decide (x ≤ 0x7F) = true ∧
    (x == 0x0A || (decide (x ≥ 0x20) && decide (x ≤ 0x7E)) ||
      (decide (x > 0xC2) && decide (x < 0xED)) || x == 0xEE) = true ∧
    width x = 1 ∧
    (x == 0x20 || (x == 0x09 || (x == 0x0D || (x == 0x0A || x == 0x00)))) = false ∧
    (x == 0x3A) = false := by
  decide

/-- C20: the primitive classes are nested. At an in-bounds position `i`,
`isDigit` implies `isHex`, `isHex` implies `isAlpha`, and `isAlpha` implies
`isASCII`, `isPrintable` and `width b[i] = 1`, and excludes `isBlankz` and
`isColon`. -/
theorem classes_nested (b : List Byte) (i : Int) (h0 : 0 ≤ i) (h : i < b.length) :
    (isDigit b i = some true → isHex b i = some true) ∧
    (isHex b i = some true → isAlpha b i = some true) ∧
    (isAlpha b i = some true →
      isASCII b i = some true ∧ isPrintable b i = some true ∧ width (byteAt b i) = 1 ∧
      isBlankz b i = some false ∧ isColon b i = some false) := by
  have hx := rd_eq_byteAt b i h0 h
  rw [isDigit_of_rd hx, isHex_of_rd hx, isAlpha_of_rd hx]
  refine ⟨?_, ?_, ?_⟩
  · intro hd
    exact congrArg some ((digit_hex_alpha _).1 (Option.some.inj hd))
  · intro hh
    exact congrArg some ((digit_hex_alpha _).2 (Option.some.inj hh))
  · intro hal
    obtain ⟨⟨n1, n2, n3, n4⟩, a1, a2, a3, a4, a5⟩ := alpha_byte _ (Option.some.inj hal)
    rw [isPrintable_of_rd_one hx n1 n3 n4, isBlankz_of_rd_one hx n1 n2]
    simp only [isASCII, isColon, byteIs_of_rd hx]
    exact ⟨congrArg some a1, congrArg some a2, a3, congrArg some a4, congrArg some a5⟩

/-- Witness for C20: the digit `7` (byte `37`) as the only byte of the buffer. -/
theorem classes_nested_witness :
    ((0 : Int) ≤ 0 ∧ (0 : Int) < ([0x37] : List Byte).length) ∧
    (isASCII [0x37] 0 = some true ∧ isPrintable [0x37] 0 = some true ∧
      width (byteAt [0x37] 0) = 1 ∧ isBlankz [0x37] 0 = some false ∧
      isColon [0x37] 0 = some false) :=
  ⟨by decide, (classes_nested [0x37] 0 (by decide) (by decide)).2.2 (by decide)⟩

end Yaml
